import Mathlib

/-!
# Verification of the PandaBrain neural-network engine

Shallow embedding of `src/skills/brain/scripts/brain_core.py` (the
"Panda Brain v2" pure-Python multi-head feedforward network) and proofs
about it.  Floating-point numbers are modelled by `ℚ`; the transcendental
functions `math.exp` and `math.log` are passed in as parameters (`expF`,
`lnF`), so every definition stays executable.  Python list indexing,
which raises `IndexError` when out of range, is modelled by `Except`;
in-place mutation is modelled by explicit state passing.
-/

namespace Panda

/-! ## Python-style primitives -/

/-- Python list indexing: `xs[i]` raises `IndexError` when out of range. -/
def pyGet {α : Type} (xs : List α) (i : Nat) : Except String α :=
  if h : i < xs.length then .ok (xs.get ⟨i, h⟩) else .error "IndexError"

/-- Exception propagation: run `e`, feed its value to `f`, propagate errors
(the Python semantics of evaluating a subexpression that may raise). -/
def bindE {α β : Type} (e : Except String α) (f : α → Except String β) : Except String β :=
  match e with
  | .error m => .error m
  | .ok a => f a

/-- Evaluate `f` on every element, left to right, stopping at the first raise. -/
def mapE {α β : Type} (f : α → Except String β) : List α → Except String (List β)
  | [] => .ok []
  | a :: l => bindE (f a) fun b => bindE (mapE f l) fun r => .ok (b :: r)

/-- Left fold where the step may raise. -/
def foldE {σ α : Type} (f : σ → α → Except String σ) (s : σ) : List α → Except String σ
  | [] => .ok s
  | a :: l => bindE (f s a) fun s2 => foldE f s2 l

/-- Total read of a numeric list, used where the shape invariants of the
network guarantee the index is in range. -/
def getQ (xs : List ℚ) (i : Nat) : ℚ := xs.getD i 0

/-- Total read of a matrix entry. -/
def getM (m : List (List ℚ)) (i j : Nat) : ℚ := (m.getD i []).getD j 0

/-- Total write of a matrix entry (`List.set` ignores out-of-range writes). -/
def setM (m : List (List ℚ)) (i j : Nat) (v : ℚ) : List (List ℚ) :=
  m.set i ((m.getD i []).set j v)

/-- Lookup in a Python dict built from a list of key/value assignments:
later assignments override earlier ones. -/
def dictGet {α : Type} (pairs : List (String × α)) (k : String) : Option α :=
  List.lookup k pairs.reverse

/-! ## Math utilities (`brain_core.py` lines 42-66) -/

def relu (x : ℚ) : ℚ := max 0 x

def relu_derivative (x : ℚ) : ℚ := if 0 < x then 1 else 0

/-- `softmax` (lines 48-52): subtract the max logit, exponentiate, normalise.
`max(logits)` on an empty list raises `ValueError` in Python.
`expF` stands for `math.exp`. -/
def softmax (expF : ℚ → ℚ) (logits : List ℚ) : Except String (List ℚ) :=
  match logits.max? with
  | none => .error "ValueError"
  | some max_val =>
    let exps := logits.map (fun v => expF (v - max_val))
    let total := exps.sum
    .ok (exps.map (fun e => e / total))

/-- `cross_entropy_loss` (lines 54-57); `lnF` stands for `math.log`. -/
def cross_entropy_loss (lnF : ℚ → ℚ) (predicted : List ℚ) (target_index : Nat) : ℚ :=
  -lnF (max (getQ predicted target_index) (1 / 10 ^ 15))

def zeros (size : Nat) : List ℚ := List.replicate size 0

/-! ## Text preprocessing (`brain_core.py` lines 71-103) -/

/-- ASCII reading of the regex class `\w` (word character). -/
def isWordChar (c : Char) : Bool := c.isAlphanum || c = '_'

/-- Drop leading whitespace. -/
def trimLeftChars : List Char → List Char
  | [] => []
  | c :: l => if c.isWhitespace then trimLeftChars l else c :: l

/-- Python `str.strip()`: drop leading and trailing whitespace. -/
def trimChars (l : List Char) : List Char :=
  (trimLeftChars (trimLeftChars l).reverse).reverse

/-- Python `str.split()`: split on whitespace runs, dropping empty pieces;
`acc` holds the current token reversed. -/
def splitWsAux : List Char → List Char → List (List Char)
  | [], acc => if acc.isEmpty then [] else [acc.reverse]
  | c :: l, acc =>
    if c.isWhitespace then
      if acc.isEmpty then splitWsAux l [] else acc.reverse :: splitWsAux l []
    else splitWsAux l (c :: acc)

/-- `tokenize` (lines 71-75): lowercase, strip, delete characters that are
neither word characters nor whitespace, split on whitespace runs. -/
def tokenize (text : String) : List String :=
  let t := trimChars (text.data.map Char.toLower)
  let t2 := t.filter (fun c => isWordChar c || c.isWhitespace)
  (splitWsAux t2 []).map String.mk

/-- One `Counter` update step: bump the count of `t`, inserting it at the
end on first occurrence (Python dicts keep insertion order). -/
def counterInsert (acc : List (String × Nat)) (t : String) : List (String × Nat) :=
  if acc.any (fun p => p.1 = t)
  then acc.map (fun p => if p.1 = t then (p.1, p.2 + 1) else p)
  else acc ++ [(t, 1)]

/-- `collections.Counter` over a token list: (token, count) pairs in first
occurrence order. -/
def counterOf (tokens : List String) : List (String × Nat) :=
  tokens.foldl counterInsert []

/-- Stable insertion of one entry into a list sorted by count descending
(new entry goes after existing entries with a count ≥ its own). -/
def insertByCountDesc (p : String × Nat) : List (String × Nat) → List (String × Nat)
  | [] => [p]
  | q :: l => if q.2 < p.2 then p :: q :: l else q :: insertByCountDesc p l

/-- `Counter.most_common`: entries sorted by count descending, ties kept in
insertion order (CPython uses a stable sort), truncated to `n`.  The left
fold inserts each entry after all already-placed entries of ≥ count, so
equal counts stay in first-seen order. -/
def mostCommon (counter : List (String × Nat)) (n : Nat) : List (String × Nat) :=
  (counter.foldl (fun acc p => insertByCountDesc p acc) []).take n

/-- `build_vocabulary` (lines 78-88): count tokens over the whole corpus and
index the `max_vocab` most frequent ones. -/
def build_vocabulary (texts : List String) (max_vocab : Nat) : List (String × Nat) :=
  let counter := counterOf (texts.flatMap tokenize)
  let most_common := mostCommon counter max_vocab
  most_common.enum.map (fun p => (p.2.1, p.1))

/-- `text_to_vector` (lines 91-103): bag-of-words vector with term-frequency
weighting; a document with zero tokens uses denominator 1. -/
def text_to_vector (text : String) (vocab : List (String × Nat)) : List ℚ :=
  let tokens := tokenize text
  let vec := zeros vocab.length
  let token_counts := counterOf tokens
  let total : ℚ := if tokens.isEmpty then 1 else tokens.length
  token_counts.foldl
    (fun v tc =>
      match dictGet vocab tc.1 with
      | some idx => v.set idx ((tc.2 : ℚ) / total)
      | none => v)
    vec

/-! ## Network state (`PandaBrain.__init__`, lines 118-169) -/

/-- One output head: weight matrix `[hidden_size][head_size]` and bias. -/
structure Head where
  w : List (List ℚ)
  b : List ℚ
  deriving DecidableEq, Repr

/-- The mutable state of a `PandaBrain` instance.  Heads and momentum
buffers are association lists in dict insertion order. -/
structure PandaBrain where
  input_size : Nat
  hidden_size : Nat
  learning_rate : ℚ
  epochs : Nat
  momentum : ℚ
  intent_labels : List String
  sentiment_labels : List String
  preference_labels : List String
  vocab : List (String × Nat)
  version : Nat
  w1 : List (List ℚ)
  b1 : List ℚ
  heads : List (String × Head)
  vw1 : List (List ℚ)
  vb1 : List ℚ
  v_heads : List (String × Head)
  deriving DecidableEq, Repr

/-- `_init_momentum` (lines 160-169): zero buffers shaped like the current
parameters (`[[0.0]*len(head.w[0]) for _ in range(len(head.w))]` reads
`head.w[0]` only when `head.w` is non-empty, hence `headD`). -/
def init_momentum (b : PandaBrain) : PandaBrain :=
  { b with
    vw1 := List.replicate b.input_size (List.replicate b.hidden_size (0 : ℚ)),
    vb1 := zeros b.hidden_size,
    v_heads := b.heads.map (fun p =>
      (p.1, { w := List.replicate p.2.w.length
                     (List.replicate (p.2.w.headD []).length (0 : ℚ)),
              b := zeros p.2.b.length })) }

/-! ## Forward pass (`PandaBrain.forward`, lines 173-204) -/

/-- Result of `forward`: pre-activations, activations, per-head probabilities. -/
structure ForwardResult where
  z1 : List ℚ
  hidden : List ℚ
  outputs : List (String × List ℚ)
  deriving DecidableEq, Repr

/-- Hidden pre-activation `z1[j] = b1[j] + Σ_i x[i] * w1[i][j]`
(lines 181-186), with Python's evaluation order of the indexing. -/
def z1compute (b : PandaBrain) (x : List ℚ) : Except String (List ℚ) :=
  mapE (fun j =>
      bindE (pyGet b.b1 j) fun s0 =>
        foldE (fun s i =>
            bindE (pyGet x i) fun xi =>
              bindE (pyGet b.w1 i) fun row =>
                bindE (pyGet row j) fun wij =>
                  .ok (s + xi * wij))
          s0 (List.range b.input_size))
    (List.range b.hidden_size)

/-- Per-head logits `logits[j] = b[j] + Σ_i h[i] * w[i][j]` (lines 196-201). -/
def logitsCompute (hidden_size : Nat) (h : List ℚ) (hd : Head) :
    Except String (List ℚ) :=
  mapE (fun j =>
      bindE (pyGet hd.b j) fun s0 =>
        foldE (fun s i =>
            bindE (pyGet h i) fun hi =>
              bindE (pyGet hd.w i) fun row =>
                bindE (pyGet row j) fun wij =>
                  .ok (s + hi * wij))
          s0 (List.range hidden_size))
    (List.range hd.b.length)

/-- `forward` (lines 173-204). -/
def forward (expF : ℚ → ℚ) (b : PandaBrain) (x : List ℚ) :
    Except String ForwardResult :=
  bindE (z1compute b x) fun z1 =>
    let h := z1.map relu
    bindE
      (mapE (fun p =>
          bindE (logitsCompute b.hidden_size h p.2) fun logits =>
            bindE (softmax expF logits) fun probs =>
              .ok (p.1, probs))
        b.heads)
      fun outputs => .ok { z1 := z1, hidden := h, outputs := outputs }

/-! ## Backward pass (`PandaBrain.backward`, lines 208-261)

Total translation: list reads use `getQ`/`getM` (the shape invariants of
the network keep every index in range) and writes use `List.set`. -/

/-- Update an entry of an association list in place (Python dict item
assignment for an existing key). -/
def setA (l : List (String × Head)) (k : String) (v : Head) : List (String × Head) :=
  l.map (fun p => if p.1 = k then (p.1, v) else p)

/-- The per-head loop body of `backward` (lines 224-246) for one
`(head_name, target_idx)` entry of `targets`, acting on the brain state and
the accumulated hidden gradient `dh`.  The read of `w[i][j]` feeding `dh`
happens AFTER `w[i][j] -= vh.w[i][j]`, exactly as in the source
(line 241 before line 242). -/
def backwardHeadStep (fr : ForwardResult) (h : List ℚ) (lr : ℚ)
    (st : PandaBrain × List ℚ) (t : String × Nat) : PandaBrain × List ℚ :=
  let br := st.1
  let dh := st.2
  let head_name := t.1
  let target_idx := t.2
  let probs := (dictGet fr.outputs head_name).getD []
  let head := (dictGet br.heads head_name).getD { w := [], b := [] }
  let vh := (dictGet br.v_heads head_name).getD { w := [], b := [] }
  let head_size := head.b.length
  let d_out := probs.set target_idx (getQ probs target_idx - 1)
  let wvd :=
    (List.range br.hidden_size).foldl
      (fun acc i =>
        (List.range head_size).foldl
          (fun acc2 j =>
            let w := acc2.1
            let vhw := acc2.2.1
            let dh := acc2.2.2
            let grad := getQ h i * getQ d_out j
            let newv := br.momentum * getM vhw i j + lr * grad
            let vhw := setM vhw i j newv
            let w := setM w i j (getM w i j - newv)
            let dh := dh.set i (getQ dh i + getM w i j * getQ d_out j)
            (w, vhw, dh))
          acc)
      (head.w, vh.w, dh)
  let bv :=
    (List.range head_size).foldl
      (fun acc j =>
        let bb := acc.1
        let vhb := acc.2
        let newv := br.momentum * getQ vhb j + lr * getQ d_out j
        (bb.set j (getQ bb j - newv), vhb.set j newv))
      (head.b, vh.b)
  ({ br with
      heads := setA br.heads head_name { w := wvd.1, b := bv.1 },
      v_heads := setA br.v_heads head_name { w := wvd.2.1, b := bv.2 } },
   wvd.2.2)

/-- `backward` (lines 208-261). -/
def backward (b : PandaBrain) (x : List ℚ) (fr : ForwardResult)
    (targets : List (String × Nat)) : PandaBrain :=
  let h := fr.hidden
  let z1 := fr.z1
  let lr := b.learning_rate
  let st := targets.foldl (backwardHeadStep fr h lr) (b, zeros b.hidden_size)
  let br := st.1
  let dh :=
    (List.range b.hidden_size).foldl
      (fun dh j => dh.set j (getQ dh j * relu_derivative (getQ z1 j)))
      st.2
  let vw :=
    (List.range b.input_size).foldl
      (fun acc i =>
        (List.range b.hidden_size).foldl
          (fun acc2 j =>
            let grad := getQ x i * getQ dh j
            let newv := b.momentum * getM acc2.1 i j + lr * grad
            (setM acc2.1 i j newv, setM acc2.2 i j (getM acc2.2 i j - newv)))
          acc)
      (br.vw1, br.w1)
  let vb :=
    (List.range b.hidden_size).foldl
      (fun acc j =>
        let newv := b.momentum * getQ acc.1 j + lr * getQ dh j
        (acc.1.set j newv, acc.2.set j (getQ acc.2 j - newv)))
      (br.vb1, br.b1)
  { br with vw1 := vw.1, w1 := vw.2, vb1 := vb.1, b1 := vb.2 }

/-! ## Spec-side variant of the backward head loop

The spec (section 4.3) requires `dh[j] += Σ_k W_head[j][k] * d_logits[k]`
to read the PRE-update head weights.  The following variant follows the
spec's words — identical to `backwardHeadStep` except that the read of
`w[i][j]` feeding `dh` happens before `w[i][j] -= vh.w[i][j]` — and exists
only to be compared with the source's ordering. -/

/-- Spec-ordered per-head loop body: `dh` reads the weight value before the
same weight is modified in this pass. -/
def backwardHeadStepSpec (fr : ForwardResult) (h : List ℚ) (lr : ℚ)
    (st : PandaBrain × List ℚ) (t : String × Nat) : PandaBrain × List ℚ :=
  let br := st.1
  let dh := st.2
  let head_name := t.1
  let target_idx := t.2
  let probs := (dictGet fr.outputs head_name).getD []
  let head := (dictGet br.heads head_name).getD { w := [], b := [] }
  let vh := (dictGet br.v_heads head_name).getD { w := [], b := [] }
  let head_size := head.b.length
  let d_out := probs.set target_idx (getQ probs target_idx - 1)
  let wvd :=
    (List.range br.hidden_size).foldl
      (fun acc i =>
        (List.range head_size).foldl
          (fun acc2 j =>
            let w := acc2.1
            let vhw := acc2.2.1
            let dh := acc2.2.2
            let grad := getQ h i * getQ d_out j
            let newv := br.momentum * getM vhw i j + lr * grad
            let vhw := setM vhw i j newv
            let dh := dh.set i (getQ dh i + getM w i j * getQ d_out j)
            let w := setM w i j (getM w i j - newv)
            (w, vhw, dh))
          acc)
      (head.w, vh.w, dh)
  let bv :=
    (List.range head_size).foldl
      (fun acc j =>
        let bb := acc.1
        let vhb := acc.2
        let newv := br.momentum * getQ vhb j + lr * getQ d_out j
        (bb.set j (getQ bb j - newv), vhb.set j newv))
      (head.b, vh.b)
  ({ br with
      heads := setA br.heads head_name { w := wvd.1, b := bv.1 },
      v_heads := setA br.v_heads head_name { w := wvd.2.1, b := bv.2 } },
   wvd.2.2)

/-- `backward` with the spec-required pre-update read in the head loop;
the rest is identical to `backward`. -/
def backwardSpecDh (b : PandaBrain) (x : List ℚ) (fr : ForwardResult)
    (targets : List (String × Nat)) : PandaBrain :=
  let h := fr.hidden
  let z1 := fr.z1
  let lr := b.learning_rate
  let st := targets.foldl (backwardHeadStepSpec fr h lr) (b, zeros b.hidden_size)
  let br := st.1
  let dh :=
    (List.range b.hidden_size).foldl
      (fun dh j => dh.set j (getQ dh j * relu_derivative (getQ z1 j)))
      st.2
  let vw :=
    (List.range b.input_size).foldl
      (fun acc i =>
        (List.range b.hidden_size).foldl
          (fun acc2 j =>
            let grad := getQ x i * getQ dh j
            let newv := b.momentum * getM acc2.1 i j + lr * grad
            (setM acc2.1 i j newv, setM acc2.2 i j (getM acc2.2 i j - newv)))
          acc)
      (br.vw1, br.w1)
  let vb :=
    (List.range b.hidden_size).foldl
      (fun acc j =>
        let newv := b.momentum * getQ acc.1 j + lr * getQ dh j
        (acc.1.set j newv, acc.2.set j (getQ acc.2 j - newv)))
      (br.vb1, br.b1)
  { br with vw1 := vw.1, w1 := vw.2, vb1 := vb.1, b1 := vb.2 }

/-! ## Training (`PandaBrain.train`, lines 265-328) -/

/-- One labelled training record (`{'text': ..., 'intent': ..., ...}`);
`s.get(head_name, "")` yields `""` for a missing label. -/
structure Sample where
  text : String
  intent : String
  sentiment : String
  preference : String
  deriving DecidableEq, Repr

/-- The label-to-index map `{l: i for i, l in enumerate(labels)}`. -/
def labelMap (labels : List String) : List (String × Nat) :=
  labels.enum.map (fun p => (p.2, p.1))

/-- The per-head label maps built by `train` (lines 282-286). -/
def labelMaps (b : PandaBrain) : List (String × List (String × Nat)) :=
  [("intent", labelMap b.intent_labels),
   ("sentiment", labelMap b.sentiment_labels),
   ("preference", labelMap b.preference_labels)]

/-- Label of sample `s` for the given head name (`s.get(head_name, "")`). -/
def sampleLabel (s : Sample) (head_name : String) : String :=
  if head_name = "intent" then s.intent
  else if head_name = "sentiment" then s.sentiment
  else if head_name = "preference" then s.preference
  else ""

/-- The target map built for one sample (lines 292-296). -/
def sampleTargets (b : PandaBrain) (s : Sample) : List (String × Nat) :=
  (labelMaps b).foldl
    (fun targets p =>
      match dictGet p.2 (sampleLabel s p.1) with
      | some idx => targets ++ [(p.1, idx)]
      | none => targets)
    []

/-- Loss accumulation over the heads targeted by one sample (lines 316-317). -/
def sampleLoss (lnF : ℚ → ℚ) (fr : ForwardResult)
    (targets : List (String × Nat)) : ℚ :=
  targets.foldl
    (fun acc t =>
      acc + cross_entropy_loss lnF ((dictGet fr.outputs t.1).getD []) t.2)
    0

/-- One epoch of `train` (lines 307-320): shuffle, then for every sample run
`forward` and `backward`, accumulating the loss.  `shuffle` is the oracle
standing for `random.shuffle`. -/
def trainEpoch (expF lnF : ℚ → ℚ)
    (shuffle : Nat → List (List ℚ × List (String × Nat)) → List (List ℚ × List (String × Nat)))
    (label_count : Nat) (epoch : Nat)
    (st : PandaBrain × List (List ℚ × List (String × Nat)) × List ℚ) :
    Except String (PandaBrain × List (List ℚ × List (String × Nat)) × List ℚ) :=
  let samples := shuffle epoch st.2.1
  bindE
    (foldE
      (fun acc sample =>
        bindE (forward expF acc.1 sample.1) fun fr =>
          .ok (backward acc.1 sample.1 fr sample.2,
               acc.2 + sampleLoss lnF fr sample.2))
      (st.1, (0 : ℚ)) samples)
    fun res =>
      let avg_loss := res.2 / (samples.length * label_count : ℚ)
      .ok (res.1, samples, st.2.2 ++ [avg_loss])

/-- Vectorization and target construction over the corpus (lines 289-298):
samples with no valid target for any head are dropped. -/
def trainSamples (b : PandaBrain) (training_data : List Sample) :
    List (List ℚ × List (String × Nat)) :=
  training_data.filterMap (fun s =>
    let vec := text_to_vector s.text b.vocab
    let targets := sampleTargets b s
    if targets.isEmpty then none else some (vec, targets))

/-- `train` (lines 265-328).  Returns the updated brain together with
`none` when there were no valid samples (Python returns `None` after
printing an error) and `some history` otherwise. -/
def train (expF lnF : ℚ → ℚ)
    (shuffle : Nat → List (List ℚ × List (String × Nat)) → List (List ℚ × List (String × Nat)))
    (b : PandaBrain) (training_data : List Sample) (epochs : Option Nat) :
    Except String (PandaBrain × Option (List ℚ)) :=
  let epochs := epochs.getD b.epochs
  let texts := training_data.map (fun s => s.text)
  let b := { b with vocab := build_vocabulary texts b.input_size }
  let samples := trainSamples b training_data
  if samples.isEmpty then .ok (b, none)
  else
    bindE
      (foldE (fun st epoch => trainEpoch expF lnF shuffle (labelMaps b).length epoch st)
        (b, samples, ([] : List ℚ)) (List.range epochs))
      fun st => .ok (st.1, some st.2.2)

/-! ## Online learning (`PandaBrain.learn_one`, lines 371-407) -/

/-- One optional label passes Python's `if label and label in lmap:` test. -/
def validLabel (lbl : Option String) (lmap : List (String × Nat)) : Option Nat :=
  match lbl with
  | none => none
  | some s => if s = "" then none else dictGet lmap s

/-- The target map built by `learn_one` (lines 389-394), in source order. -/
def learnTargets (b : PandaBrain)
    (intent sentiment preference : Option String) : List (String × Nat) :=
  (match validLabel intent (labelMap b.intent_labels) with
   | some idx => [("intent", idx)]
   | none => []) ++
  (match validLabel sentiment (labelMap b.sentiment_labels) with
   | some idx => [("sentiment", idx)]
   | none => []) ++
  (match validLabel preference (labelMap b.preference_labels) with
   | some idx => [("preference", idx)]
   | none => [])

/-- `learn_one` (lines 371-407). -/
def learn_one (expF : ℚ → ℚ) (b : PandaBrain) (text : String)
    (intent sentiment preference : Option String) :
    Except String (PandaBrain × Bool) :=
  if b.vocab.isEmpty then .ok (b, false)
  else
    let vec := text_to_vector text b.vocab
    let targets := learnTargets b intent sentiment preference
    if targets.isEmpty then .ok (b, false)
    else
      let old_lr := b.learning_rate
      let b := { b with learning_rate := old_lr * (1 / 10) }
      bindE (forward expF b vec) fun fr =>
        let b := backward b vec fr targets
        .ok ({ b with learning_rate := old_lr }, true)

/-! ## Persistence (`PandaBrain.save` / `load`, lines 411-459) -/

/-- Persisted per-head record; `none` fields model missing JSON keys
(reading one with `data[...]` raises `KeyError`). -/
structure RawHead where
  w : Option (List (List ℚ))
  b : Option (List ℚ)
  deriving DecidableEq, Repr

/-- Persisted weights record (`weights.json`). -/
structure RawRecord where
  version : Option Nat
  w1 : Option (List (List ℚ))
  b1 : Option (List ℚ)
  heads : Option (List (String × RawHead))
  vocab : Option (List (String × Nat))
  deriving DecidableEq, Repr

/-- The state of the weights file as `load` finds it. -/
inductive FileState where
  | missing
  | malformed
  | parsed (data : RawRecord)
  deriving DecidableEq, Repr

/-- `save` (lines 411-437): the record written to the weights file. -/
def save (b : PandaBrain) : RawRecord :=
  { version := some b.version,
    w1 := some b.w1,
    b1 := some b.b1,
    heads := some (b.heads.map (fun p => (p.1, ⟨some p.2.w, some p.2.b⟩))),
    vocab := some b.vocab }

/-- The head loop of `load` (lines 453-456), threading the mutated head
list and stopping at the first `KeyError`.  A record head with `w` present
but `b` missing leaves that head half-overwritten, as in the source
(two separate item assignments). -/
def loadHeads (recHeads : List (String × RawHead)) :
    List (String × Head) → List (String × Head) × Except String Unit
  | [] => ([], .ok ())
  | p :: rest =>
    match dictGet recHeads p.1 with
    | none =>
      let r := loadHeads recHeads rest
      (p :: r.1, r.2)
    | some rh =>
      match rh.w with
      | none => (p :: rest, .error "KeyError")
      | some w =>
        match rh.b with
        | none => ((p.1, { p.2 with w := w }) :: rest, .error "KeyError")
        | some bb =>
          let r := loadHeads recHeads rest
          ((p.1, { w := w, b := bb }) :: r.1, r.2)

/-- `load` (lines 439-459).  The returned `Except` is `ok flag` when the
Python call returns `flag` and `error` when it raises; the returned brain
is the in-memory state afterwards (mutations before a raise stick). -/
def load (b : PandaBrain) (f : FileState) : PandaBrain × Except String Bool :=
  match f with
  | .missing => (b, .ok false)
  | .malformed => (b, .error "JSONDecodeError")
  | .parsed data =>
    match data.w1 with
    | none => (b, .error "KeyError")
    | some w1 =>
      match data.b1 with
      | none => ({ b with w1 := w1 }, .error "KeyError")
      | some nb1 =>
        let b := { b with w1 := w1, b1 := nb1, vocab := data.vocab.getD [] }
        let r := loadHeads (data.heads.getD []) b.heads
        match r.2 with
        | .error msg => ({ b with heads := r.1 }, .error msg)
        | .ok _ => (init_momentum { b with heads := r.1 }, .ok true)

/-! ## Shape invariants -/

/-- The shape invariants `_init_weights` establishes and every operation
preserves: positive hidden width, `w1 : [input_size][hidden_size]` (at
least), `b1` of length ≥ `hidden_size`, and for every head a non-empty
bias with `w : [hidden_size][head_size]` (at least).  Under these, the
only indexing in `forward` that can go out of range is the read of the
input vector. -/
def wfBrain (b : PandaBrain) : Prop :=
  0 < b.hidden_size ∧
  b.input_size ≤ b.w1.length ∧
  (∀ row ∈ b.w1, b.hidden_size ≤ row.length) ∧
  b.hidden_size ≤ b.b1.length ∧
  ∀ p ∈ b.heads, p.2.b ≠ [] ∧ b.hidden_size ≤ p.2.w.length ∧
    ∀ row ∈ p.2.w, p.2.b.length ≤ row.length

instance (b : PandaBrain) : Decidable (wfBrain b) := by
  unfold wfBrain; infer_instance

/-- Did the Python call return normally (no exception)? -/
def isOkE {α : Type} : Except String α → Bool
  | .ok _ => true
  | .error _ => false

/-- The boolean returned by a `learn_one` call that did not raise. -/
def learnFlag : Except String (PandaBrain × Bool) → Option Bool
  | .ok p => some p.2
  | .error _ => none

/-! ## Concrete instances (used by witnesses and counterexamples) -/

/-- Stand-in for `math.exp` in concrete computations: constant 1 (positive
everywhere, which is all the softmax facts need). -/
def expOne : ℚ → ℚ := fun _ => 1

/-- A minimal well-formed brain: 1 input, 1 hidden unit, the three
configured heads, vocabulary of size 1. -/
def demoBrain : PandaBrain :=
  { input_size := 1, hidden_size := 1, learning_rate := 1, epochs := 1,
    momentum := 9 / 10,
    intent_labels := ["greet", "bye"],
    sentiment_labels := ["pos"],
    preference_labels := ["like"],
    vocab := [("hello", 0)], version := 2,
    w1 := [[0]], b1 := [0],
    heads := [("intent", ⟨[[0, 0]], [0, 0]⟩),
              ("sentiment", ⟨[[0]], [0]⟩),
              ("preference", ⟨[[0]], [0]⟩)],
    vw1 := [[0]], vb1 := [0],
    v_heads := [("intent", ⟨[[0, 0]], [0, 0]⟩),
                ("sentiment", ⟨[[0]], [0]⟩),
                ("preference", ⟨[[0]], [0]⟩)] }

/-- A forward result for `demoBrain` on input `[1]` under `expOne`. -/
def demoForward : ForwardResult :=
  { z1 := [0], hidden := [0],
    outputs := [("intent", [1 / 2, 1 / 2]), ("sentiment", [1]),
                ("preference", [1])] }

/-- A forward result with an active hidden unit, used to exhibit the
post-update read of the head weights in `backward`. -/
def frActive : ForwardResult :=
  { z1 := [1], hidden := [1], outputs := [("intent", [1 / 2, 1 / 2])] }

/-- `demoBrain` restricted to its `intent` head. -/
def brainOneHead : PandaBrain :=
  { demoBrain with
    heads := [("intent", ⟨[[0, 0]], [0, 0]⟩)],
    v_heads := [("intent", ⟨[[0, 0]], [0, 0]⟩)] }

/-- `brainOneHead` with a non-zero hidden momentum buffer. -/
def demoBrainVW : PandaBrain := { brainOneHead with vw1 := [[1]] }

/-- A brain whose non-empty vocabulary (1 entry) is smaller than its
input width (2): the state `train` leaves behind when the corpus has
fewer distinct tokens than `input_size`. -/
def brainSmallVocab : PandaBrain :=
  { demoBrain with input_size := 2, w1 := [[0], [0]], vw1 := [[0], [0]] }

/-- A trained-looking brain sharing `demoBrain`'s configuration. -/
def demoTrained : PandaBrain :=
  { demoBrain with
    w1 := [[3]], b1 := [7], vocab := [("hi", 0)],
    heads := [("intent", ⟨[[2, 4]], [5, 6]⟩),
              ("sentiment", ⟨[[8]], [9]⟩),
              ("preference", ⟨[[1]], [2]⟩)] }

/-- A parsed weights record whose `b1` key is missing. -/
def recNoB1 : RawRecord :=
  { version := some 2, w1 := some [[5]], b1 := none, heads := none,
    vocab := none }

/-- A parsed weights record that overwrites only the `intent` head. -/
def recIntentOnly : RawRecord :=
  { version := some 2, w1 := some [[1]], b1 := some [1],
    heads := some [("intent", ⟨some [[9, 9]], some [8, 8]⟩)],
    vocab := some [("hey", 0)] }

/-- A training record none of whose labels is known to any head. -/
def badSample : Sample :=
  { text := "bad text", intent := "nope", sentiment := "", preference := "" }

/-- A training record with a known intent label. -/
def goodSample : Sample :=
  { text := "hello hello", intent := "greet", sentiment := "", preference := "" }

/-- Identity shuffle oracle (tests inject determinism, per the spec). -/
def noShuffle : Nat → List (List ℚ × List (String × Nat)) → List (List ℚ × List (String × Nat)) :=
  fun _ l => l

end Panda

deriving instance DecidableEq for Except

namespace Panda

/-! ## Helper lemmas -/

theorem setD_self {α : Type} (l : List α) (i : Nat) (d : α) :
    l.set i (l.getD i d) = l := by
  induction l generalizing i with
  | nil => simp
  | cons a l ih =>
    cases i with
    | zero => simp
    | succ n => simpa [List.set] using ih n

theorem set_self_of_eq {l : List ℚ} {i : Nat} {v : ℚ} (h : getQ l i = v) :
    l.set i v = l := by
  subst h; exact setD_self l i 0

theorem setM_self {m : List (List ℚ)} {i j : Nat} {v : ℚ} (h : getM m i j = v) :
    setM m i j v = m := by
  subst h
  unfold setM getM
  rw [show (m.getD i []).getD j 0 = getQ (m.getD i []) j from rfl,
    set_self_of_eq rfl]
  exact setD_self m i []

theorem foldl_id {α σ : Type} (f : σ → α → σ) (a : σ) (l : List α)
    (h : ∀ x ∈ l, f a x = a) : l.foldl f a = a := by
  induction l with
  | nil => rfl
  | cons x l ih =>
    rw [List.foldl_cons, h x (by simp)]
    exact ih (fun y hy => h y (by simp [hy]))

theorem getQ_replicate_zero (n i : Nat) : getQ (List.replicate n (0 : ℚ)) i = 0 := by
  unfold getQ
  induction n generalizing i with
  | zero => simp
  | succ m ih =>
    cases i with
    | zero => simp
    | succ k => simp only [List.replicate_succ, List.getD_cons_succ]; exact ih k

theorem bindE_ok {α β : Type} {e : Except String α} {f : α → Except String β}
    {r : β} (h : bindE e f = .ok r) : ∃ a, e = .ok a ∧ f a = .ok r := by
  cases e with
  | error m => simp [bindE] at h
  | ok a => exact ⟨a, rfl, h⟩

theorem bindE_ok_of {α β : Type} {e : Except String α} {f : α → Except String β}
    {a : α} (he : e = .ok a) {r : β} (hf : f a = .ok r) : bindE e f = .ok r := by
  subst he; exact hf

theorem pyGet_ok {α : Type} {xs : List α} {i : Nat} (h : i < xs.length) :
    pyGet xs i = .ok (xs.get ⟨i, h⟩) := by
  simp [pyGet, h]

theorem pyGet_ok_iff {α : Type} {xs : List α} {i : Nat} :
    (∃ a, pyGet xs i = .ok a) ↔ i < xs.length := by
  constructor
  · rintro ⟨a, ha⟩
    by_contra h
    simp [pyGet, h] at ha
  · intro h
    exact ⟨xs.get ⟨i, h⟩, pyGet_ok h⟩

theorem mapE_ok_of {α β : Type} {f : α → Except String β} {l : List α}
    (h : ∀ a ∈ l, ∃ b, f a = .ok b) : ∃ r, mapE f l = .ok r ∧ r.length = l.length := by
  induction l with
  | nil => exact ⟨[], rfl, rfl⟩
  | cons a l ih =>
    obtain ⟨b, hb⟩ := h a (by simp)
    obtain ⟨r, hr, hlen⟩ := ih (fun x hx => h x (by simp [hx]))
    exact ⟨b :: r, by simp [mapE, hb, bindE, hr], by simp [hlen]⟩

theorem mapE_ok_length {α β : Type} {f : α → Except String β} {l : List α}
    {r : List β} (h : mapE f l = .ok r) : r.length = l.length := by
  induction l generalizing r with
  | nil => cases h; rfl
  | cons a l ih =>
    obtain ⟨b, hb, h2⟩ := bindE_ok h
    obtain ⟨r2, hr2, h3⟩ := bindE_ok h2
    cases h3
    simpa using ih hr2

theorem mapE_ok_mem {α β : Type} {f : α → Except String β} {l : List α}
    {r : List β} (h : mapE f l = .ok r) : ∀ a ∈ l, ∃ b ∈ r, f a = .ok b := by
  induction l generalizing r with
  | nil => simp
  | cons x l ih =>
    obtain ⟨b, hb, h2⟩ := bindE_ok h
    obtain ⟨r2, hr2, h3⟩ := bindE_ok h2
    cases h3
    intro a ha
    rcases List.mem_cons.1 ha with h | h
    · exact ⟨b, by simp, h ▸ hb⟩
    · obtain ⟨c, hc, hfc⟩ := ih hr2 a h
      exact ⟨c, by simp [hc], hfc⟩

theorem mapE_mem_ok {α β : Type} {f : α → Except String β} {l : List α}
    {r : List β} (h : mapE f l = .ok r) : ∀ b ∈ r, ∃ a ∈ l, f a = .ok b := by
  induction l generalizing r with
  | nil => cases h; simp
  | cons x l ih =>
    obtain ⟨b, hb, h2⟩ := bindE_ok h
    obtain ⟨r2, hr2, h3⟩ := bindE_ok h2
    cases h3
    intro c hc
    rcases List.mem_cons.1 hc with h | h
    · exact ⟨x, by simp, h ▸ hb⟩
    · obtain ⟨a, ha, hfa⟩ := ih hr2 c h
      exact ⟨a, by simp [ha], hfa⟩

theorem foldE_ok_of {σ α : Type} {f : σ → α → Except String σ} {l : List α}
    (h : ∀ s, ∀ a ∈ l, ∃ s2, f s a = .ok s2) :
    ∀ s, ∃ r, foldE f s l = .ok r := by
  induction l with
  | nil => exact fun s => ⟨s, rfl⟩
  | cons a l ih =>
    intro s
    obtain ⟨s2, hs2⟩ := h s a (by simp)
    obtain ⟨r, hr⟩ := ih (fun s x hx => h s x (by simp [hx])) s2
    exact ⟨r, by simp [foldE, hs2, bindE, hr]⟩

theorem foldE_ok_mem {σ α : Type} {f : σ → α → Except String σ} {l : List α}
    {s : σ} {r : σ} (h : foldE f s l = .ok r) :
    ∀ a ∈ l, ∃ s1 s2, f s1 a = .ok s2 := by
  induction l generalizing s with
  | nil => simp
  | cons x l ih =>
    obtain ⟨s2, hs2, h2⟩ := bindE_ok h
    intro a ha
    rcases List.mem_cons.1 ha with h | h
    · exact ⟨s, s2, h ▸ hs2⟩
    · exact ih h2 a h

theorem sum_map_div (es : List ℚ) (t : ℚ) :
    (es.map (fun e => e / t)).sum = es.sum / t := by
  induction es with
  | nil => simp
  | cons e es ih => simp [ih, add_div]

/-- Whatever its input, a successful `softmax` output sums to 1 and is
entrywise non-negative, provided the exponential is positive. -/
theorem softmax_ok_props {expF : ℚ → ℚ} (hexp : ∀ y, 0 < expF y)
    {l p : List ℚ} (h : softmax expF l = .ok p) :
    p.sum = 1 ∧ ∀ q ∈ p, 0 ≤ q := by
  unfold softmax at h
  cases hm : l.max? with
  | none => rw [hm] at h; exact absurd h (by simp)
  | some m =>
    rw [hm] at h
    simp only [Except.ok.injEq] at h
    have hne : l ≠ [] := by
      intro he; subst he; simp at hm
    have hpos : 0 < (l.map (fun v => expF (v - m))).sum := by
      refine List.sum_pos _ (fun x hx => ?_) (by simpa using hne)
      obtain ⟨v, _, hv⟩ := List.mem_map.1 hx
      exact hv ▸ hexp (v - m)
    constructor
    · rw [← h, sum_map_div, div_self (ne_of_gt hpos)]
    · intro q hq
      rw [← h] at hq
      obtain ⟨e, he, rfl⟩ := List.mem_map.1 hq
      obtain ⟨v, _, rfl⟩ := List.mem_map.1 he
      exact le_of_lt (div_pos (hexp _) hpos)

theorem lookup_mem {α : Type} {l : List (String × α)} {k : String} {v : α}
    (h : List.lookup k l = some v) : (k, v) ∈ l := by
  induction l with
  | nil => simp [List.lookup] at h
  | cons p t ih =>
    rw [List.lookup] at h
    by_cases he : k = p.1
    · simp [he] at h
      exact List.mem_cons.2 (Or.inl (by rw [he, ← h]))
    · have : (k == p.1) = false := by simpa using he
      rw [this] at h
      exact List.mem_cons_of_mem _ (ih h)

theorem lookup_of_mem_nodup {α : Type} {l : List (String × α)} {k : String}
    {v : α} (hnd : (l.map Prod.fst).Nodup) (h : (k, v) ∈ l) :
    List.lookup k l = some v := by
  induction l with
  | nil => simp at h
  | cons p t ih =>
    rw [List.map_cons, List.nodup_cons] at hnd
    rcases List.mem_cons.1 h with h | h
    · rw [List.lookup, ← h]
      simp
    · have hk : k ≠ p.1 := by
        intro he
        exact hnd.1 (he ▸ List.mem_map.2 ⟨(k, v), h, rfl⟩)
      rw [List.lookup, show (k == p.1) = false by simpa using hk]
      exact ih hnd.2 h

theorem dictGet_of_mem_nodup {α : Type} {l : List (String × α)} {k : String}
    {v : α} (hnd : (l.map Prod.fst).Nodup) (h : (k, v) ∈ l) :
    dictGet l k = some v := by
  unfold dictGet
  exact lookup_of_mem_nodup
    (by rw [List.map_reverse]; exact List.nodup_reverse.2 hnd)
    (List.mem_reverse.2 h)

/-- When every record head found for a configured head has both keys, the
`load` head loop succeeds and overwrites exactly the heads present in the
record. -/
theorem loadHeads_total (recH : List (String × RawHead)) (cur : List (String × Head))
    (hok : ∀ p ∈ cur, ∀ rh, dictGet recH p.1 = some rh → rh.w.isSome ∧ rh.b.isSome) :
    loadHeads recH cur =
      (cur.map (fun p =>
        match dictGet recH p.1 with
        | some rh => (p.1, Head.mk (rh.w.getD []) (rh.b.getD []))
        | none => p),
       .ok ()) := by
  induction cur with
  | nil => rfl
  | cons p t ih =>
    rw [loadHeads]
    cases hd : dictGet recH p.1 with
    | none => simp [hd, ih (fun q hq => hok q (List.mem_cons_of_mem _ hq))]
    | some rh =>
      obtain ⟨hw, hb⟩ := hok p (by simp) rh hd
      obtain ⟨w, hw⟩ := Option.isSome_iff_exists.1 hw
      obtain ⟨bb, hb⟩ := Option.isSome_iff_exists.1 hb
      simp [hd, hw, hb, ih (fun q hq => hok q (List.mem_cons_of_mem _ hq))]

/-- Conversely, a successful head loop implies every record head found had
both keys. -/
theorem loadHeads_ok_inv {recH : List (String × RawHead)} {cur : List (String × Head)}
    (h : (loadHeads recH cur).2 = .ok ()) :
    ∀ p ∈ cur, ∀ rh, dictGet recH p.1 = some rh → rh.w.isSome ∧ rh.b.isSome := by
  induction cur with
  | nil => simp
  | cons p t ih =>
    intro q hq rh hd
    rcases List.mem_cons.1 hq with hq | hq
    · subst hq
      rw [loadHeads, hd] at h
      cases rh with
      | mk rw1 rb1 =>
        cases rw1 with
        | none => simp at h
        | some w =>
          cases rb1 with
          | none => simp at h
          | some bb => simp
    · rw [loadHeads] at h
      cases hd2 : dictGet recH p.1 with
      | none =>
        rw [hd2] at h
        exact ih (by simpa using h) q hq rh hd
      | some rh2 =>
        rw [hd2] at h
        cases rh2 with
        | mk rw2 rb2 =>
          cases rw2 with
          | none => simp at h
          | some w =>
            cases rb2 with
            | none => simp at h
            | some bb =>
              exact ih (by simpa using h) q hq rh hd

/-- Mapping the load-head overwrite over a list whose names mirror the
saved list reproduces the saved heads. -/
theorem map_dictGet_raw (recH : List (String × RawHead))
    (l2 l : List (String × Head))
    (hnames : l2.map Prod.fst = l.map Prod.fst)
    (hget : ∀ p ∈ l, dictGet recH p.1 = some ⟨some p.2.w, some p.2.b⟩) :
    l2.map (fun p =>
      match dictGet recH p.1 with
      | some rh => (p.1, Head.mk (rh.w.getD []) (rh.b.getD []))
      | none => p) = l := by
  induction l2 generalizing l with
  | nil =>
    cases l with
    | nil => rfl
    | cons q t => simp at hnames
  | cons p t ih =>
    cases l with
    | nil => simp at hnames
    | cons q t2 =>
      simp only [List.map_cons, List.cons.injEq] at hnames
      rw [List.map_cons]
      refine congrArg₂ List.cons ?_
        (ih t2 hnames.2 (fun r hr => hget r (List.mem_cons_of_mem _ hr)))
      rw [hnames.1, hget q (by simp)]
      cases q with
      | mk n hd => cases hd with | mk w bb => rfl

/-- Under the shape invariants, `forward` raises no `IndexError` as soon
as the input vector is long enough. -/
theorem forward_isOk_of (expF : ℚ → ℚ) (b : PandaBrain) (x : List ℚ)
    (hwf : wfBrain b) (hx : b.input_size ≤ x.length) :
    ∃ r, forward expF b x = .ok r := by
  obtain ⟨hhid, hw1, hw1row, hb1, hheads⟩ := hwf
  have hz1 : ∃ z1, z1compute b x = .ok z1 ∧ z1.length = b.hidden_size := by
    unfold z1compute
    have hall : ∀ j ∈ List.range b.hidden_size, ∃ v,
        bindE (pyGet b.b1 j) (fun s0 =>
          foldE (fun s i => bindE (pyGet x i) (fun xi =>
            bindE (pyGet b.w1 i) (fun row =>
              bindE (pyGet row j) (fun wij => .ok (s + xi * wij)))))
            s0 (List.range b.input_size)) = .ok v := by
      intro j hj
      rw [List.mem_range] at hj
      have hj1 : j < b.b1.length := lt_of_lt_of_le hj hb1
      have hstep : ∀ s, ∀ i ∈ List.range b.input_size, ∃ s2,
          bindE (pyGet x i) (fun xi => bindE (pyGet b.w1 i) (fun row =>
            bindE (pyGet row j) (fun wij => .ok (s + xi * wij)))) = .ok s2 := by
        intro s i hi
        rw [List.mem_range] at hi
        have hxi : i < x.length := lt_of_lt_of_le hi hx
        have hwi : i < b.w1.length := lt_of_lt_of_le hi hw1
        have hrow : j < (b.w1.get ⟨i, hwi⟩).length :=
          lt_of_lt_of_le hj (hw1row _ (b.w1.get_mem i hwi))
        exact ⟨_, bindE_ok_of (pyGet_ok hxi) (bindE_ok_of (pyGet_ok hwi)
          (bindE_ok_of (pyGet_ok hrow) rfl))⟩
      obtain ⟨r, hr⟩ := foldE_ok_of hstep (b.b1.get ⟨j, hj1⟩)
      exact ⟨r, bindE_ok_of (pyGet_ok hj1) hr⟩
    obtain ⟨z1, hz, hlen⟩ := mapE_ok_of hall
    exact ⟨z1, hz, by simpa using hlen⟩
  obtain ⟨z1, hz1ok, hz1len⟩ := hz1
  have hhlen : (z1.map relu).length = b.hidden_size := by simpa using hz1len
  have houts : ∃ outs, mapE (fun p =>
      bindE (logitsCompute b.hidden_size (z1.map relu) p.2)
        (fun logits => bindE (softmax expF logits)
          (fun probs => .ok (p.1, probs)))) b.heads = .ok outs := by
    have hall2 : ∀ p ∈ b.heads, ∃ v,
        bindE (logitsCompute b.hidden_size (z1.map relu) p.2)
          (fun logits => bindE (softmax expF logits)
            (fun probs => .ok (p.1, probs))) = .ok v := by
      intro p hp
      obtain ⟨hbne, hwlen, hwrow⟩ := hheads p hp
      have hlog : ∃ logits, logitsCompute b.hidden_size (z1.map relu) p.2
          = .ok logits ∧ logits.length = p.2.b.length := by
        unfold logitsCompute
        have hall3 : ∀ j ∈ List.range p.2.b.length, ∃ v,
            bindE (pyGet p.2.b j) (fun s0 =>
              foldE (fun s i => bindE (pyGet (z1.map relu) i) (fun hi =>
                bindE (pyGet p.2.w i) (fun row =>
                  bindE (pyGet row j) (fun wij => .ok (s + hi * wij)))))
                s0 (List.range b.hidden_size)) = .ok v := by
          intro j hj
          rw [List.mem_range] at hj
          have hstep : ∀ s, ∀ i ∈ List.range b.hidden_size, ∃ s2,
              bindE (pyGet (z1.map relu) i) (fun hi => bindE (pyGet p.2.w i)
                (fun row => bindE (pyGet row j)
                  (fun wij => .ok (s + hi * wij)))) = .ok s2 := by
            intro s i hi
            rw [List.mem_range] at hi
            have hhi : i < (z1.map relu).length := by rw [hhlen]; exact hi
            have hwi : i < p.2.w.length := lt_of_lt_of_le hi hwlen
            have hrow : j < (p.2.w.get ⟨i, hwi⟩).length :=
              lt_of_lt_of_le hj (hwrow _ (p.2.w.get_mem i hwi))
            exact ⟨_, bindE_ok_of (pyGet_ok hhi) (bindE_ok_of (pyGet_ok hwi)
              (bindE_ok_of (pyGet_ok hrow) rfl))⟩
          obtain ⟨r2, hr2⟩ := foldE_ok_of hstep (p.2.b.get ⟨j, hj⟩)
          exact ⟨r2, bindE_ok_of (pyGet_ok hj) hr2⟩
        obtain ⟨lg, h2, h3⟩ := mapE_ok_of hall3
        exact ⟨lg, h2, by simpa using h3⟩
      obtain ⟨logits, hlg, hlglen⟩ := hlog
      have hmax : ∃ m, logits.max? = some m := by
        cases hl : logits with
        | nil =>
          rw [hl] at hlglen
          exact absurd hlglen.symm (by simpa using hbne)
        | cons a t => exact ⟨t.foldl max a, rfl⟩
      obtain ⟨m, hm⟩ := hmax
      have hsm : softmax expF logits = .ok ((logits.map (fun v => expF (v - m))).map
          (fun e => e / (logits.map (fun v => expF (v - m))).sum)) := by
        rw [softmax, hm]
      exact ⟨_, bindE_ok_of hlg (bindE_ok_of hsm rfl)⟩
    obtain ⟨outs, h1, _⟩ := mapE_ok_of hall2
    exact ⟨outs, h1⟩
  obtain ⟨outs, houts⟩ := houts
  exact ⟨_, bindE_ok_of hz1ok (bindE_ok_of houts rfl)⟩

/-- Conversely, with at least one hidden unit a successful `forward` needs
the input vector to cover `x[0..input_size)`: the first hidden unit's loop
reads every one of those entries. -/
theorem forward_ok_input_length (expF : ℚ → ℚ) (b : PandaBrain) (x : List ℚ)
    (hhid : 0 < b.hidden_size) {r : ForwardResult}
    (h : forward expF b x = .ok r) : b.input_size ≤ x.length := by
  by_contra hlt
  push_neg at hlt
  obtain ⟨z1, hz1, _⟩ := bindE_ok h
  unfold z1compute at hz1
  obtain ⟨v, _, hv⟩ := mapE_ok_mem hz1 0 (List.mem_range.2 hhid)
  obtain ⟨s0, _, hfold⟩ := bindE_ok hv
  obtain ⟨s1, s2, hstep⟩ := foldE_ok_mem hfold x.length (List.mem_range.2 hlt)
  obtain ⟨xi, hxi, _⟩ := bindE_ok hstep
  exact absurd (pyGet_ok_iff.1 ⟨xi, hxi⟩) (lt_irrefl _)

theorem foldl_length_invariant {α : Type} (f : List ℚ → α → List ℚ)
    (hf : ∀ acc y, (f acc y).length = acc.length) :
    ∀ (l : List α) (acc : List ℚ), (l.foldl f acc).length = acc.length := by
  intro l
  induction l with
  | nil => intro acc; rfl
  | cons a l ih => intro acc; rw [List.foldl_cons, ih, hf]

/-- The feature vector always has the vocabulary's length (not the
configured `input_size`). -/
theorem text_to_vector_length (t : String) (v : List (String × Nat)) :
    (text_to_vector t v).length = v.length := by
  unfold text_to_vector
  rw [foldl_length_invariant]
  · simp [zeros]
  · intro acc y
    cases dictGet v y.1 with
    | none => rfl
    | some idx => simp

theorem insertByCountDesc_length (p : String × Nat) (l : List (String × Nat)) :
    (insertByCountDesc p l).length = l.length + 1 := by
  induction l with
  | nil => rfl
  | cons q t ih =>
    rw [insertByCountDesc]
    by_cases hq : q.2 < p.2
    · simp [hq]
    · simp [hq, ih]

theorem sortByCountDesc_length (l : List (String × Nat)) :
    (l.foldl (fun acc p => insertByCountDesc p acc) []).length = l.length := by
  have haux : ∀ (l2 acc : List (String × Nat)),
      (l2.foldl (fun acc p => insertByCountDesc p acc) acc).length =
        acc.length + l2.length := by
    intro l2
    induction l2 with
    | nil => intro acc; simp
    | cons p t ih =>
      intro acc
      rw [List.foldl_cons, ih, insertByCountDesc_length]
      simp only [List.length_cons]
      omega
  simpa using haux l []

theorem counterInsert_keys (acc : List (String × Nat)) (t : String) :
    (counterInsert acc t).map Prod.fst =
      if t ∈ acc.map Prod.fst then acc.map Prod.fst
      else acc.map Prod.fst ++ [t] := by
  unfold counterInsert
  by_cases hmem : t ∈ acc.map Prod.fst
  · obtain ⟨p, hp, hpt⟩ := List.mem_map.1 hmem
    have hany : acc.any (fun p => p.1 = t) = true :=
      List.any_eq_true.2 ⟨p, hp, by simp [hpt]⟩
    simp only [hany, if_true, if_pos hmem, List.map_map]
    apply List.map_congr_left
    intro q _
    by_cases hq : q.1 = t <;> simp [hq]
  · have hany : acc.any (fun p => p.1 = t) = false := by
      rw [List.any_eq_false]
      intro p hp
      simp only [decide_eq_true_eq]
      intro hpt
      exact hmem (List.mem_map.2 ⟨p, hp, hpt⟩)
    rw [hany, if_neg hmem]
    simp

theorem counter_keys_aux (l : List String) (acc : List (String × Nat))
    (hnd : (acc.map Prod.fst).Nodup) :
    ((l.foldl counterInsert acc).map Prod.fst).Nodup ∧
      ((l.foldl counterInsert acc).map Prod.fst).toFinset =
        (acc.map Prod.fst).toFinset ∪ l.toFinset := by
  induction l generalizing acc with
  | nil => simp [hnd]
  | cons t l ih =>
    rw [List.foldl_cons]
    have hkeys := counterInsert_keys acc t
    by_cases hmem : t ∈ acc.map Prod.fst
    · rw [if_pos hmem] at hkeys
      have hnd2 : ((counterInsert acc t).map Prod.fst).Nodup := by
        rw [hkeys]; exact hnd
      obtain ⟨h1, h2⟩ := ih (counterInsert acc t) hnd2
      refine ⟨h1, ?_⟩
      rw [h2, hkeys]
      have : t ∈ (acc.map Prod.fst).toFinset := List.mem_toFinset.2 hmem
      simp only [List.toFinset_cons]
      rw [Finset.union_insert, Finset.insert_eq_of_mem
        (Finset.mem_union.2 (Or.inl this))]
    · rw [if_neg hmem] at hkeys
      have hnd2 : ((counterInsert acc t).map Prod.fst).Nodup := by
        rw [hkeys]
        refine List.Nodup.append hnd (List.nodup_singleton t) ?_
        intro a ha hb
        rw [List.mem_singleton] at hb
        subst hb
        exact hmem ha
      obtain ⟨h1, h2⟩ := ih (counterInsert acc t) hnd2
      refine ⟨h1, ?_⟩
      rw [h2, hkeys]
      simp only [List.toFinset_append, List.toFinset_cons, List.toFinset_nil]
      rw [Finset.union_insert]
      have : insert t ((acc.map Prod.fst).toFinset ∪ l.toFinset)
          = (acc.map Prod.fst).toFinset ∪ insert t l.toFinset := by
        ext a
        simp [or_assoc, or_left_comm, or_comm]
      rw [← this]
      simp

/-- The counter has one entry per distinct token. -/
theorem counterOf_length (l : List String) :
    (counterOf l).length = l.toFinset.card := by
  obtain ⟨hnd, hset⟩ := counter_keys_aux l [] (by simp)
  have h2 : ((counterOf l).map Prod.fst).toFinset = l.toFinset := by
    unfold counterOf
    rw [hset]
    simp
  have h3 : ((counterOf l).map Prod.fst).Nodup := hnd
  calc (counterOf l).length
      = ((counterOf l).map Prod.fst).length := by simp
    _ = ((counterOf l).map Prod.fst).toFinset.card :=
        (List.toFinset_card_of_nodup h3).symm
    _ = l.toFinset.card := by rw [h2]

/-- The learned vocabulary has `min (distinct token count) max_vocab`
entries. -/
theorem build_vocabulary_length (texts : List String) (max_vocab : Nat) :
    (build_vocabulary texts max_vocab).length =
      min max_vocab (texts.flatMap tokenize).toFinset.card := by
  unfold build_vocabulary mostCommon
  simp [List.length_take, sortByCountDesc_length, counterOf_length]

theorem foldl_preserve {σ α : Type} (f : σ → α → σ) (P : σ → Prop)
    (hf : ∀ s a, P s → P (f s a)) : ∀ (l : List α) (s : σ), P s → P (l.foldl f s) := by
  intro l
  induction l with
  | nil => intro s hs; exact hs
  | cons a l ih => intro s hs; exact ih _ (hf _ _ hs)

/-- `backward` touches only weights and momentum buffers: vocabulary,
learning rate and configuration survive unchanged. -/
theorem backward_preserves_config (b : PandaBrain) (x : List ℚ)
    (fr : ForwardResult) (targets : List (String × Nat)) :
    (backward b x fr targets).vocab = b.vocab ∧
      (backward b x fr targets).learning_rate = b.learning_rate ∧
      (backward b x fr targets).input_size = b.input_size ∧
      (backward b x fr targets).hidden_size = b.hidden_size := by
  unfold backward
  have h := foldl_preserve (backwardHeadStep fr fr.hidden b.learning_rate)
    (fun st => st.1.vocab = b.vocab ∧ st.1.learning_rate = b.learning_rate ∧
      st.1.input_size = b.input_size ∧ st.1.hidden_size = b.hidden_size)
    (fun s a hs => by
      unfold backwardHeadStep
      exact hs)
    targets (b, zeros b.hidden_size) ⟨rfl, rfl, rfl, rfl⟩
  exact h

/-! ## Claims -/

/-- C9: for every vocabulary, a text that tokenizes to zero tokens (in
particular the empty string) vectorizes to the all-zero feature vector of
the vocabulary's length, with no division by zero or exception. -/
theorem text_to_vector_empty_tokens_zero (text : String)
    (vocab : List (String × Nat)) (h : tokenize text = []) :
    text_to_vector text vocab = List.replicate vocab.length 0 := by
  simp [text_to_vector, h, counterOf, zeros]

theorem text_to_vector_empty_tokens_zero_witness :
    tokenize "" = [] ∧
      text_to_vector "" [("hello", 0)] = List.replicate 1 0 := by
  refine ⟨by decide, ?_⟩
  have := text_to_vector_empty_tokens_zero "" [("hello", 0)] (by decide)
  simpa using this

/-- C2 counterexample: with a non-zero hidden momentum buffer, `backward`
with an empty targets map changes `w1` (the buffer decays by `0.9` and is
subtracted from the weight), so the state is not bit-identical. -/
theorem backward_empty_targets_cex :
    (backward demoBrainVW [0] demoForward []).w1 ≠ demoBrainVW.w1 := by
  norm_num [backward, backwardHeadStep, getQ, getM, setM, setA, dictGet,
    zeros, relu_derivative, demoBrainVW, brainOneHead, demoBrain, demoForward,
    List.range_succ, List.lookup]

/-- C2 (amended): `backward` with an empty targets map never touches head
weights, head biases, or head momentum buffers; and when the hidden-layer
momentum buffers are all zero it leaves the whole state bit-identical.
(With a non-zero hidden momentum buffer the hidden parameters undergo a
pure momentum-decay step, so the original claim fails there.) -/
theorem backward_empty_targets_frame (b : PandaBrain) (x : List ℚ)
    (fr : ForwardResult) :
    (backward b x fr []).heads = b.heads ∧
    (backward b x fr []).v_heads = b.v_heads ∧
    ((∀ i j, getM b.vw1 i j = 0) → (∀ j, getQ b.vb1 j = 0) →
      backward b x fr [] = b) := by
  refine ⟨rfl, rfl, fun hvw hvb => ?_⟩
  unfold backward
  simp only [List.foldl_nil]
  have hdh : (List.range b.hidden_size).foldl
      (fun dh j => dh.set j (getQ dh j * relu_derivative (getQ fr.z1 j)))
      (zeros b.hidden_size) = zeros b.hidden_size :=
    foldl_id _ _ _ (fun j _ =>
      set_self_of_eq (by simp [zeros, getQ_replicate_zero]))
  rw [hdh]
  have hvwfold : (List.range b.input_size).foldl
      (fun acc i => (List.range b.hidden_size).foldl
        (fun acc2 j =>
          (setM acc2.1 i j
            (b.momentum * getM acc2.1 i j +
              b.learning_rate * (getQ x i * getQ (zeros b.hidden_size) j)),
           setM acc2.2 i j
            (getM acc2.2 i j -
              (b.momentum * getM acc2.1 i j +
                b.learning_rate * (getQ x i * getQ (zeros b.hidden_size) j)))))
        acc)
      (b.vw1, b.w1) = (b.vw1, b.w1) :=
    foldl_id _ _ _ (fun i _ =>
      foldl_id _ _ _ (fun j _ => by
        have hz : getQ (zeros b.hidden_size) j = 0 := getQ_replicate_zero _ _
        have hnv : b.momentum * getM b.vw1 i j +
            b.learning_rate * (getQ x i * getQ (zeros b.hidden_size) j) = 0 := by
          rw [hvw, hz]; ring
        rw [Prod.mk.injEq]
        exact ⟨setM_self (by rw [hvw, hz]; ring),
               setM_self (by rw [hnv]; ring)⟩))
  have hvbfold : (List.range b.hidden_size).foldl
      (fun acc j =>
        (acc.1.set j
          (b.momentum * getQ acc.1 j +
            b.learning_rate * getQ (zeros b.hidden_size) j),
         acc.2.set j
          (getQ acc.2 j -
            (b.momentum * getQ acc.1 j +
              b.learning_rate * getQ (zeros b.hidden_size) j))))
      (b.vb1, b.b1) = (b.vb1, b.b1) :=
    foldl_id _ _ _ (fun j _ => by
      have hz : getQ (zeros b.hidden_size) j = 0 := getQ_replicate_zero _ _
      rw [Prod.mk.injEq]
      exact ⟨set_self_of_eq (by rw [hvb, hz]; ring),
             set_self_of_eq (by rw [hvb, hz]; ring)⟩)
  rw [hvwfold, hvbfold]

theorem backward_empty_targets_frame_witness :
    (∀ i j, getM demoBrain.vw1 i j = 0) ∧ (∀ j, getQ demoBrain.vb1 j = 0) ∧
      backward demoBrain [0] demoForward [] = demoBrain := by
  have h1 : ∀ i j, getM demoBrain.vw1 i j = 0 := by
    intro i j
    match i, j with
    | 0, 0 => rfl
    | 0, k + 1 => rfl
    | n + 1, k => rfl
  have h2 : ∀ j, getQ demoBrain.vb1 j = 0 := by
    intro j
    match j with
    | 0 => rfl
    | k + 1 => rfl
  exact ⟨h1, h2,
    (backward_empty_targets_frame demoBrain [0] demoForward).2.2 h1 h2⟩

/-- C1 (code bug): the gradient accumulated into `dh` reads `w[i][j]`
AFTER the line `w[i][j] -= vh.w[i][j]` has modified it, so `backward`
diverges from the spec-ordered variant that reads the pre-update weight:
on a concrete input the resulting hidden bias differs. -/
theorem backward_dh_reads_postupdate_weights :
    (backward brainOneHead [1] frActive [("intent", 0)]).b1 ≠
      (backwardSpecDh brainOneHead [1] frActive [("intent", 0)]).b1 := by
  norm_num [backward, backwardSpecDh, backwardHeadStep, backwardHeadStepSpec,
    getQ, getM, setM, setA, dictGet, zeros, relu_derivative, brainOneHead,
    demoBrain, frActive, List.range_succ, List.lookup]

/-- C3: whenever `forward` returns, every head's probability vector sums
to exactly 1 and is entrywise non-negative (softmax subtracts the max
logit and normalises by the sum of exponentials), for any positive model
of `math.exp`. -/
theorem forward_probabilities_normalized (expF : ℚ → ℚ) (b : PandaBrain)
    (x : List ℚ) (hexp : ∀ y, 0 < expF y) (r : ForwardResult)
    (hr : forward expF b x = .ok r) :
    ∀ nm out, (nm, out) ∈ r.outputs → out.sum = 1 ∧ ∀ q ∈ out, 0 ≤ q := by
  obtain ⟨z1, _, h2⟩ := bindE_ok hr
  obtain ⟨outs, houts, h3⟩ := bindE_ok h2
  cases h3
  intro nm out hmem
  obtain ⟨p, _, hfp⟩ := mapE_mem_ok houts (nm, out) hmem
  obtain ⟨logits, _, h4⟩ := bindE_ok hfp
  obtain ⟨probs, hsm, h5⟩ := bindE_ok h4
  cases h5
  exact softmax_ok_props hexp hsm

theorem forward_probabilities_normalized_witness :
    (∀ y : ℚ, 0 < expOne y) ∧
      forward expOne demoBrain [1] = .ok demoForward ∧
      (([1 / 2, 1 / 2] : List ℚ).sum = 1 ∧ ∀ q ∈ ([1 / 2, 1 / 2] : List ℚ), 0 ≤ q) := by
  have hexp : ∀ y : ℚ, 0 < expOne y := fun y => one_pos
  have hfwd : forward expOne demoBrain [1] = .ok demoForward := by
    norm_num [forward, z1compute, logitsCompute, softmax, mapE, foldE, bindE,
      pyGet, relu, expOne, demoBrain, demoForward, List.range_succ]
  exact ⟨hexp, hfwd,
    forward_probabilities_normalized expOne demoBrain [1] hexp demoForward
      hfwd "intent" [1 / 2, 1 / 2] (List.mem_cons_self _ _)⟩

/-- C4: saving a model and loading the record into a freshly constructed
model with the same configured head names (no duplicates) returns `true`
and reproduces the hidden weights and bias, every head's weights and
bias, and the vocabulary, bit for bit. -/
theorem save_load_roundtrip (b b2 : PandaBrain)
    (hnames : b2.heads.map Prod.fst = b.heads.map Prod.fst)
    (hnodup : (b.heads.map Prod.fst).Nodup) :
    (load b2 (.parsed (save b))).2 = .ok true ∧
    (load b2 (.parsed (save b))).1.w1 = b.w1 ∧
    (load b2 (.parsed (save b))).1.b1 = b.b1 ∧
    (load b2 (.parsed (save b))).1.vocab = b.vocab ∧
    (load b2 (.parsed (save b))).1.heads = b.heads := by
  have hget : ∀ p ∈ b.heads,
      dictGet (b.heads.map (fun q => (q.1, RawHead.mk (some q.2.w) (some q.2.b)))) p.1
        = some ⟨some p.2.w, some p.2.b⟩ := by
    intro p hp
    apply dictGet_of_mem_nodup
    · simpa [List.map_map, Function.comp_def] using hnodup
    · exact List.mem_map.2 ⟨p, hp, rfl⟩
  have hok : ∀ p ∈ b2.heads, ∀ rh,
      dictGet (b.heads.map (fun q => (q.1, RawHead.mk (some q.2.w) (some q.2.b)))) p.1
        = some rh → rh.w.isSome ∧ rh.b.isSome := by
    intro p _ rh hd
    have hmem := List.mem_reverse.1 (lookup_mem hd)
    obtain ⟨q, _, hq⟩ := List.mem_map.1 hmem
    have : rh = ⟨some q.2.w, some q.2.b⟩ := by
      have := congrArg Prod.snd hq
      exact this.symm
    simp [this]
  have hLH := loadHeads_total
    (b.heads.map (fun q => (q.1, RawHead.mk (some q.2.w) (some q.2.b))))
    b2.heads hok
  have hmap := map_dictGet_raw
    (b.heads.map (fun q => (q.1, RawHead.mk (some q.2.w) (some q.2.b))))
    b2.heads b.heads hnames hget
  simp only [load, save, Option.getD_some]
  rw [hLH]
  exact ⟨rfl, rfl, rfl, rfl, hmap⟩

theorem save_load_roundtrip_witness :
    (demoBrain.heads.map Prod.fst = demoTrained.heads.map Prod.fst) ∧
      ((demoTrained.heads.map Prod.fst).Nodup) ∧
      (load demoBrain (.parsed (save demoTrained))).2 = .ok true ∧
      (load demoBrain (.parsed (save demoTrained))).1.w1 = demoTrained.w1 ∧
      (load demoBrain (.parsed (save demoTrained))).1.b1 = demoTrained.b1 ∧
      (load demoBrain (.parsed (save demoTrained))).1.vocab = demoTrained.vocab ∧
      (load demoBrain (.parsed (save demoTrained))).1.heads = demoTrained.heads := by
  have h1 : demoBrain.heads.map Prod.fst = demoTrained.heads.map Prod.fst := by
    decide
  have h2 : (demoTrained.heads.map Prod.fst).Nodup := by decide
  have h := save_load_roundtrip demoTrained demoBrain h1 h2
  exact ⟨h1, h2, h.1, h.2.1, h.2.2.1, h.2.2.2.1, h.2.2.2.2⟩

/-- C7 counterexample: a malformed weights file makes `load` raise
(propagate a parse error) instead of returning a failure flag, and a
parsable record missing the `b1` key raises `KeyError` after having
already overwritten `w1` — the in-memory state is not left untouched. -/
theorem load_malformed_raises_cex :
    (load demoBrain .malformed).2 = .error "JSONDecodeError" ∧
    (load demoBrain (.parsed recNoB1)).2 = .error "KeyError" ∧
    (load demoBrain (.parsed recNoB1)).1.w1 ≠ demoBrain.w1 := by
  exact ⟨rfl, by decide, by decide⟩

/-- C7 (amended): only a MISSING weights file is reported via the `false`
return value with the state untouched; a malformed file propagates the
parse exception (state untouched because the parse fails before any
assignment), and a record that parses but lacks `b1` raises `KeyError`
after overwriting `w1`. -/
theorem load_failure_behavior (b : PandaBrain) (d : RawRecord) :
    load b .missing = (b, .ok false) ∧
    load b .malformed = (b, .error "JSONDecodeError") ∧
    (d.b1 = none → ∀ w, d.w1 = some w →
      load b (.parsed d) = ({ b with w1 := w }, .error "KeyError")) := by
  refine ⟨rfl, rfl, fun h1 w h2 => ?_⟩
  simp [load, h1, h2]

theorem load_failure_behavior_witness :
    recNoB1.b1 = none ∧ recNoB1.w1 = some [[5]] ∧
      load demoBrain (.parsed recNoB1) =
        ({ demoBrain with w1 := [[5]] }, .error "KeyError") :=
  ⟨rfl, rfl, (load_failure_behavior demoBrain recNoB1).2.2 rfl [[5]] rfl⟩

/-- C8: after any successful load from a parsed record, every configured
head present in the record has its weights and bias overwritten from the
record, every configured head absent from the record keeps its current
parameters, and all momentum buffers are zero. -/
theorem load_success_frame (b : PandaBrain) (d : RawRecord)
    (h : (load b (.parsed d)).2 = .ok true) :
    (load b (.parsed d)).1.heads =
      b.heads.map (fun p =>
        match dictGet (d.heads.getD []) p.1 with
        | some rh => (p.1, Head.mk (rh.w.getD []) (rh.b.getD []))
        | none => p) ∧
    (load b (.parsed d)).1.vw1 =
      List.replicate b.input_size (List.replicate b.hidden_size 0) ∧
    (load b (.parsed d)).1.vb1 = List.replicate b.hidden_size 0 ∧
    ∀ p ∈ (load b (.parsed d)).1.v_heads,
      (∀ row ∈ p.2.w, ∀ q ∈ row, q = 0) ∧ ∀ q ∈ p.2.b, q = 0 := by
  cases hw1 : d.w1 with
  | none => rw [load, hw1] at h; simp at h
  | some w1 =>
    cases hb1 : d.b1 with
    | none => rw [load, hw1, hb1] at h; simp at h
    | some nb1 =>
      simp only [load, hw1, hb1] at h ⊢
      cases hr : (loadHeads (d.heads.getD []) b.heads).2 with
      | error msg => rw [hr] at h; simp at h
      | ok u =>
        cases u
        have hLH := loadHeads_total (d.heads.getD []) b.heads
          (loadHeads_ok_inv hr)
        rw [hLH]
        refine ⟨rfl, rfl, rfl, ?_⟩
        intro p hp
        simp only [init_momentum] at hp
        obtain ⟨q, _, rfl⟩ := List.mem_map.1 hp
        constructor
        · intro row hrow q2 hq2
          rw [List.eq_of_mem_replicate hrow] at hq2
          exact List.eq_of_mem_replicate hq2
        · intro q2 hq2
          exact List.eq_of_mem_replicate hq2

theorem load_success_frame_witness :
    ((load demoBrain (.parsed recIntentOnly)).2 = .ok true) ∧
      (load demoBrain (.parsed recIntentOnly)).1.heads =
        demoBrain.heads.map (fun p =>
          match dictGet (recIntentOnly.heads.getD []) p.1 with
          | some rh => (p.1, Head.mk (rh.w.getD []) (rh.b.getD []))
          | none => p) ∧
      (load demoBrain (.parsed recIntentOnly)).1.vw1 =
        List.replicate demoBrain.input_size
          (List.replicate demoBrain.hidden_size 0) ∧
      (load demoBrain (.parsed recIntentOnly)).1.vb1 =
        List.replicate demoBrain.hidden_size 0 ∧
      ∀ p ∈ (load demoBrain (.parsed recIntentOnly)).1.v_heads,
        (∀ row ∈ p.2.w, ∀ q ∈ row, q = 0) ∧ ∀ q ∈ p.2.b, q = 0 := by
  have hok : (load demoBrain (.parsed recIntentOnly)).2 = .ok true := by decide
  have h := load_success_frame demoBrain recIntentOnly hok
  exact ⟨hok, h.1, h.2.1, h.2.2.1, h.2.2.2⟩

theorem trainSamples_eq_nil (b2 : PandaBrain) (td : List Sample)
    (h : ∀ s ∈ td, sampleTargets b2 s = []) : trainSamples b2 td = [] := by
  unfold trainSamples
  induction td with
  | nil => rfl
  | cons s t ih =>
    rw [List.filterMap_cons]
    have hs := h s (by simp)
    have ht := ih (fun s2 hs2 => h s2 (by simp [hs2]))
    simp only [hs, List.isEmpty_nil, if_pos]
    exact ht

/-- C5: when no training record carries a label known to any head,
`train` returns the explicit no-valid-samples result (`none` instead of a
loss history) and performs no parameter or momentum update: the only
state change is the vocabulary swap to the newly built vocabulary. -/
theorem train_no_valid_samples (expF lnF : ℚ → ℚ)
    (shuffle : Nat → List (List ℚ × List (String × Nat)) → List (List ℚ × List (String × Nat)))
    (b : PandaBrain) (training_data : List Sample) (epochs : Option Nat)
    (h : ∀ s ∈ training_data, sampleTargets b s = []) :
    train expF lnF shuffle b training_data epochs =
      .ok ({ b with vocab := build_vocabulary (training_data.map (fun s => s.text)) b.input_size }, none) := by
  have hnil : trainSamples
      { b with vocab := build_vocabulary (training_data.map (fun s => s.text)) b.input_size }
      training_data = [] :=
    trainSamples_eq_nil _ _ (fun s hs => h s hs)
  unfold train
  simp [hnil]

theorem train_no_valid_samples_witness :
    (∀ s ∈ [badSample], sampleTargets demoBrain s = []) ∧
      train expOne expOne noShuffle demoBrain [badSample] none =
        .ok ({ demoBrain with vocab := build_vocabulary ([badSample].map (fun s => s.text)) demoBrain.input_size }, none) := by
  have h : ∀ s ∈ [badSample], sampleTargets demoBrain s = [] := by decide
  exact ⟨h, train_no_valid_samples expOne expOne noShuffle demoBrain
    [badSample] none h⟩

/-- C6 counterexample: in the reachable trained state where the
vocabulary is non-empty but smaller than `input_size` (a corpus with
fewer distinct tokens than the input width leaves exactly this), a
`learn_one` call with a valid label raises `IndexError` inside `forward`
instead of returning `true`, so the claim as stated fails. -/
theorem learn_one_small_vocab_cex :
    brainSmallVocab.vocab ≠ [] ∧
    learnTargets brainSmallVocab (some "greet") none none ≠ [] ∧
    learn_one expOne brainSmallVocab "hello" (some "greet") none none =
      .error "IndexError" := by
  refine ⟨by decide, by decide, ?_⟩
  have htok : tokenize "hello" = ["hello"] := by decide
  have hvec : text_to_vector "hello" brainSmallVocab.vocab = [1] := by
    unfold text_to_vector
    rw [htok]
    norm_num [counterOf, counterInsert, dictGet, zeros, List.lookup,
      brainSmallVocab, demoBrain]
  have hfw : forward expOne
      { brainSmallVocab with
        learning_rate := brainSmallVocab.learning_rate * (1 / 10) } [1] =
      .error "IndexError" := by
    norm_num [forward, z1compute, mapE, foldE, bindE, pyGet,
      List.range_succ, expOne, brainSmallVocab, demoBrain]
  unfold learn_one
  rw [if_neg (by decide), if_neg (by decide)]
  show bindE (forward expOne
      { brainSmallVocab with
        learning_rate := brainSmallVocab.learning_rate * (1 / 10) }
      (text_to_vector "hello" brainSmallVocab.vocab)) _ =
    Except.error "IndexError"
  rw [hvec, hfw]
  rfl

/-- C6 (amended): `learn_one` returns `false` (with the state untouched)
exactly when the vocabulary is empty or no supplied label maps to a known
class of its head.  Otherwise, when the vocabulary has at least
`input_size` entries, it vectorizes with the existing vocabulary
(unmutated), performs one forward+backward update with the learning rate
scaled by 0.1, restores the original learning rate, and returns `true`;
but when the non-empty vocabulary is smaller than `input_size` it raises
instead of returning. -/
theorem learn_one_spec (expF : ℚ → ℚ) (b : PandaBrain) (text : String)
    (intent sentiment preference : Option String)
    (hwf : wfBrain b) :
    (b.vocab = [] ∨ learnTargets b intent sentiment preference = [] →
      learn_one expF b text intent sentiment preference = .ok (b, false)) ∧
    (b.vocab ≠ [] → learnTargets b intent sentiment preference ≠ [] →
      b.input_size ≤ b.vocab.length →
      ∃ fr b2,
        forward expF { b with learning_rate := b.learning_rate * (1 / 10) }
          (text_to_vector text b.vocab) = .ok fr ∧
        b2 = { backward { b with learning_rate := b.learning_rate * (1 / 10) }
            (text_to_vector text b.vocab) fr
            (learnTargets b intent sentiment preference) with
            learning_rate := b.learning_rate } ∧
        learn_one expF b text intent sentiment preference = .ok (b2, true) ∧
        b2.vocab = b.vocab ∧ b2.learning_rate = b.learning_rate) ∧
    (b.vocab ≠ [] → learnTargets b intent sentiment preference ≠ [] →
      b.vocab.length < b.input_size →
      ∃ msg, learn_one expF b text intent sentiment preference = .error msg) := by
  refine ⟨?_, ?_, ?_⟩
  · intro h
    rcases h with h | h
    · simp [learn_one, h]
    · by_cases hv : b.vocab = []
      · simp [learn_one, hv]
      · simp [learn_one, List.isEmpty_iff, hv, h]
  · intro hv ht hvlen
    have hlen : b.input_size ≤ (text_to_vector text b.vocab).length := by
      rw [text_to_vector_length]
      exact hvlen
    have hwf2 : wfBrain { b with learning_rate := b.learning_rate * (1 / 10) } :=
      hwf
    obtain ⟨fr, hfr⟩ := forward_isOk_of expF _ _ hwf2 hlen
    refine ⟨fr, _, hfr, rfl, ?_, ?_, rfl⟩
    · have hv2 : ¬(b.vocab.isEmpty = true) := by
        simpa [List.isEmpty_iff] using hv
      have ht2 : ¬((learnTargets b intent sentiment preference).isEmpty = true) := by
        simpa [List.isEmpty_iff] using ht
      unfold learn_one
      rw [if_neg hv2, if_neg ht2]
      exact bindE_ok_of hfr rfl
    · exact (backward_preserves_config
        { b with learning_rate := b.learning_rate * (1 / 10) }
        (text_to_vector text b.vocab) fr
        (learnTargets b intent sentiment preference)).1
  · intro hv ht hlt
    have hv2 : ¬(b.vocab.isEmpty = true) := by
      simpa [List.isEmpty_iff] using hv
    have ht2 : ¬((learnTargets b intent sentiment preference).isEmpty = true) := by
      simpa [List.isEmpty_iff] using ht
    cases hfw : forward expF
        { b with learning_rate := b.learning_rate * (1 / 10) }
        (text_to_vector text b.vocab) with
    | ok r =>
      exfalso
      have hle := forward_ok_input_length expF _ _ hwf.1 hfw
      rw [text_to_vector_length] at hle
      exact absurd hle (not_le.2 hlt)
    | error msg =>
      refine ⟨msg, ?_⟩
      unfold learn_one
      rw [if_neg hv2, if_neg ht2]
      show bindE (forward expF
          { b with learning_rate := b.learning_rate * (1 / 10) }
          (text_to_vector text b.vocab)) _ = Except.error msg
      rw [hfw]
      rfl

theorem learn_one_spec_witness :
    wfBrain demoBrain ∧ demoBrain.vocab ≠ [] ∧
      learnTargets demoBrain (some "greet") none none ≠ [] ∧
      demoBrain.input_size ≤ demoBrain.vocab.length ∧
      learn_one expOne demoBrain "hello" none none none = .ok (demoBrain, false) ∧
      learnFlag (learn_one expOne demoBrain "hello" (some "greet") none none) =
        some true := by
  have hwf : wfBrain demoBrain := by decide
  have hv : demoBrain.vocab ≠ [] := by decide
  have ht : learnTargets demoBrain (some "greet") none none ≠ [] := by decide
  have hle : demoBrain.input_size ≤ demoBrain.vocab.length := by decide
  refine ⟨hwf, hv, ht, hle, ?_, ?_⟩
  · exact (learn_one_spec expOne demoBrain "hello" none none none hwf).1
      (Or.inr (by decide))
  · obtain ⟨fr, b2, hfr, hb2, hlo, hvv, hlr⟩ :=
      (learn_one_spec expOne demoBrain "hello" (some "greet") none none
        hwf).2.1 hv ht hle
    rw [hlo]
    rfl

/-- C10: the feature vector's length equals the vocabulary's size, not
the configured `input_size`; with a vocabulary learned by
`build_vocabulary` capped at `input_size`, `forward`'s indexing of the
vectorized text stays in bounds precisely when the learned vocabulary
size equals `input_size`, and a corpus with fewer distinct tokens than
`input_size` drives `forward` into an out-of-range read. -/
theorem vectorized_forward_bounds (expF : ℚ → ℚ) (b : PandaBrain)
    (t : String) (texts : List String) (v : List (String × Nat))
    (hwf : wfBrain b) :
    (text_to_vector t v).length = v.length ∧
    (v = build_vocabulary texts b.input_size →
      (isOkE (forward expF b (text_to_vector t v)) = true ↔
        v.length = b.input_size)) ∧
    ((texts.flatMap tokenize).toFinset.card < b.input_size →
      isOkE (forward expF b (text_to_vector t
        (build_vocabulary texts b.input_size))) = false) := by
  refine ⟨text_to_vector_length t v, ?_, ?_⟩
  · intro hv
    have hxlen : (text_to_vector t v).length = v.length :=
      text_to_vector_length t v
    have hvle : v.length ≤ b.input_size := by
      rw [hv, build_vocabulary_length]
      exact min_le_left _ _
    constructor
    · intro hok
      obtain ⟨r, hr⟩ : ∃ r, forward expF b (text_to_vector t v) = .ok r := by
        cases hfw : forward expF b (text_to_vector t v) with
        | ok r => exact ⟨r, rfl⟩
        | error m => rw [hfw] at hok; simp [isOkE] at hok
      have hle := forward_ok_input_length expF b _ hwf.1 hr
      rw [hxlen] at hle
      exact le_antisymm hvle hle
    · intro heq
      obtain ⟨r, hr⟩ := forward_isOk_of expF b _ hwf (by rw [hxlen, heq])
      rw [hr]
      rfl
  · intro hcard
    have hlen : (build_vocabulary texts b.input_size).length < b.input_size := by
      rw [build_vocabulary_length]
      exact lt_of_le_of_lt (min_le_right _ _) hcard
    cases hfw : forward expF b
        (text_to_vector t (build_vocabulary texts b.input_size)) with
    | error m => rfl
    | ok r =>
      have hle := forward_ok_input_length expF b _ hwf.1 hfw
      rw [text_to_vector_length] at hle
      exact absurd hle (not_le.2 hlen)

theorem vectorized_forward_bounds_witness :
    wfBrain demoBrain ∧
      (text_to_vector "hello" [("hello", 0)]).length =
        ([("hello", 0)] : List (String × Nat)).length ∧
      (([("hello", 0)] : List (String × Nat)) =
          build_vocabulary ["hello hello"] demoBrain.input_size →
        (isOkE (forward expOne demoBrain
            (text_to_vector "hello" [("hello", 0)])) = true ↔
          ([("hello", 0)] : List (String × Nat)).length = demoBrain.input_size)) ∧
      ((["hello hello"].flatMap tokenize).toFinset.card < demoBrain.input_size →
        isOkE (forward expOne demoBrain (text_to_vector "hello"
          (build_vocabulary ["hello hello"] demoBrain.input_size))) = false) := by
  have hwf : wfBrain demoBrain := by decide
  have h := vectorized_forward_bounds expOne demoBrain "hello" ["hello hello"]
    [("hello", 0)] hwf
  exact ⟨hwf, h.1, h.2.1, h.2.2⟩

end Panda
